import Mathlib

/-!
Task-list editor (`src/App.js`): state transitions and persistence.

A shallow embedding of the `App` component of `src/App.js`.

* JavaScript strings are sequences of UTF-16 code units; they are embedded as
  `List Nat` (`JsString`), one number per code unit.
* A task is the object `{ id, title, completed }` built by `addTask`.
* The four `useState` cells (`tasks`, `input`, `editId`, `editText`) form `AppState`;
  every handler is a function on `AppState`.
* `JSON.parse` and `JSON.stringify` are platform functions; they are embedded following
  ECMA-404 / ECMA-262 (`JSON.parse` on arbitrary text, `JSON.stringify` on task arrays).
-/

namespace TodoApp

/-! ## Data model -/

/-- A JavaScript string: its UTF-16 code units. -/
abbrev JsString := List Nat

/-- The code units of a Lean string (a code point above `0xFFFF` becomes a surrogate pair). -/
def utf16 (s : String) : JsString :=
  s.toList.flatMap fun c =>
    if c.toNat < 65536 then [c.toNat]
    else [55296 + (c.toNat - 65536) / 1024, 56320 + (c.toNat - 65536) % 1024]

/-- The object `{ id, title, completed }` of `addTask` (`App.js` line 30). -/
structure Task where
  id : JsString
  title : JsString
  completed : Bool
  deriving DecidableEq, Repr

/-- The four `useState` cells of `App` (`App.js` lines 6-9); `editId = null` is `none`. -/
structure AppState where
  tasks : List Task
  input : JsString
  editId : Option JsString
  editText : JsString
  deriving DecidableEq, Repr

/-! ## `String.prototype.trim` -/

/-- ECMA-262 `WhiteSpace` and `LineTerminator` code units, the ones `trim` strips. -/
def isTrimSpace (c : Nat) : Bool :=
  c = 9 || c = 10 || c = 11 || c = 12 || c = 13 || c = 32 || c = 160 || c = 5760 ||
  (8192 ≤ c && c ≤ 8202) || c = 8232 || c = 8233 || c = 8239 || c = 8287 ||
  c = 12288 || c = 65279

/-- The method `s.trim()`: leading and trailing white space removed. -/
def trim (s : JsString) : JsString :=
  (s.dropWhile isTrimSpace).rdropWhile isTrimSpace

/-! ## Handlers -/

/-- The handler `addTask` (`App.js` lines 27-33); `newId` is the value returned by `uuidv4()`. -/
def addTask (newId : JsString) (st : AppState) : AppState :=
  if trim st.input = [] then st
  else
    let newTask : Task := { id := newId, title := st.input, completed := false }
    { st with tasks := st.tasks ++ [newTask], input := [] }

/-- The handler `toggleTask` (`App.js` lines 36-42). -/
def toggleTask (id : JsString) (st : AppState) : AppState :=
  { st with
    tasks := st.tasks.map fun task =>
      if task.id = id then { task with completed := !task.completed } else task }

/-- The handler `deleteTask` (`App.js` lines 45-47). -/
def deleteTask (id : JsString) (st : AppState) : AppState :=
  { st with tasks := st.tasks.filter fun task => task.id ≠ id }

/-- The handler `startEdit` (`App.js` lines 50-53). -/
def startEdit (id : JsString) (currentText : JsString) (st : AppState) : AppState :=
  { st with editId := some id, editText := currentText }

/-- The handler `saveEdit` (`App.js` lines 56-65). -/
def saveEdit (id : JsString) (st : AppState) : AppState :=
  if trim st.editText = [] then st
  else
    { st with
      tasks := st.tasks.map fun task =>
        if task.id = id then { task with title := st.editText } else task
      editId := none
      editText := [] }

/-- The handler `cancelEdit` (`App.js` lines 68-71). -/
def cancelEdit (st : AppState) : AppState :=
  { st with editId := none, editText := [] }

/-- The arguments with which the edit-mode controls call `saveEdit` (`App.js` lines 107-118):
the id of every task rendered in edit mode, that is, with `editId === task.id`. -/
def saveEditCalls (st : AppState) : List JsString :=
  (st.tasks.filter fun task => st.editId = some task.id).map Task.id

/-- The `onChange` handler of the add form (`App.js` line 86). -/
def setInput (value : JsString) (st : AppState) : AppState :=
  { st with input := value }

/-- The `onChange` handler of the edit field (`App.js` line 114). -/
def setEditText (value : JsString) (st : AppState) : AppState :=
  { st with editText := value }

/-! ## JSON values and `JSON.parse` -/

/-- A value produced by `JSON.parse`. A number is kept as its source lexeme and an object as
its members in source order: the program never inspects either. -/
inductive JsVal where
  | null
  | bool (b : Bool)
  | num (lexeme : JsString)
  | str (s : JsString)
  | arr (xs : List JsVal)
  | obj (members : List (JsString × JsVal))

/-- The value a task has as a JavaScript object, keys in creation order. -/
def Task.toJs (t : Task) : JsVal :=
  .obj [(utf16 "id", .str t.id), (utf16 "title", .str t.title),
        (utf16 "completed", .bool t.completed)]

/-- The value a task sequence has as a JavaScript array. -/
def tasksToJs (s : List Task) : JsVal :=
  .arr (s.map Task.toJs)

/-- JSON white space: tab, line feed, carriage return, space. -/
def isJsonWs (c : Nat) : Bool :=
  c = 9 || c = 10 || c = 13 || c = 32

/-- Drop leading JSON white space. -/
def skipWs : List Nat → List Nat
  | [] => []
  | c :: cs => if isJsonWs c then skipWs cs else c :: cs

/-- Value of a hexadecimal digit. -/
def hexVal (c : Nat) : Option Nat :=
  if 48 ≤ c ∧ c ≤ 57 then some (c - 48)
  else if 97 ≤ c ∧ c ≤ 102 then some (c - 87)
  else if 65 ≤ c ∧ c ≤ 70 then some (c - 55)
  else none

/-- The four hexadecimal digits of a `\uXXXX` escape. -/
def parseHex4 : List Nat → Option (Nat × List Nat)
  | a :: b :: c :: d :: rest =>
    match hexVal a, hexVal b, hexVal c, hexVal d with
    | some x, some y, some z, some w => some (x * 4096 + y * 256 + z * 16 + w, rest)
    | _, _, _, _ => none
  | _ => none

/-- The code unit a single-character escape `\e` stands for. -/
def unescape (e : Nat) : Option Nat :=
  if e = 34 then some 34        -- \"
  else if e = 92 then some 92   -- \\
  else if e = 47 then some 47   -- \/
  else if e = 98 then some 8    -- \b
  else if e = 102 then some 12  -- \f
  else if e = 110 then some 10  -- \n
  else if e = 114 then some 13  -- \r
  else if e = 116 then some 9   -- \t
  else none

/-- The characters of a JSON string after its opening quote, up to and including the closing
quote; `fuel` bounds the number of steps. -/
def parseChars : Nat → List Nat → Option (JsString × List Nat)
  | 0, _ => none
  | _ + 1, [] => none
  | fuel + 1, c :: rest =>
    if c = 34 then some ([], rest)
    else if c = 92 then
      match rest with
      | [] => none
      | e :: rest1 =>
        if e = 117 then
          match parseHex4 rest1 with
          | none => none
          | some (n, rest2) => (parseChars fuel rest2).map fun r => (n :: r.1, r.2)
        else
          match unescape e with
          | none => none
          | some x => (parseChars fuel rest1).map fun r => (x :: r.1, r.2)
    else if c < 32 then none
    else (parseChars fuel rest).map fun r => (c :: r.1, r.2)

/-- A JSON string after its opening quote. -/
def parseString (cs : List Nat) : Option (JsString × List Nat) :=
  parseChars cs.length cs

/-- Decimal digit. -/
def isDigit (c : Nat) : Bool :=
  48 ≤ c && c ≤ 57

/-- Strip `lit` from the front of `cs`. -/
def stripLit : List Nat → List Nat → Option (List Nat)
  | [], cs => some cs
  | _ :: _, [] => none
  | l :: ls, c :: cs => if l = c then stripLit ls cs else none

/-- The integer part of a JSON number: `0`, or a non-zero digit followed by digits. -/
def parseInt (cs : List Nat) : Option (List Nat × List Nat) :=
  match cs with
  | [] => none
  | c :: rest =>
    if c = 48 then some ([48], rest)
    else if isDigit c then some (c :: rest.takeWhile isDigit, rest.dropWhile isDigit)
    else none

/-- The optional fraction of a JSON number: `.` and at least one digit. -/
def parseFrac (cs : List Nat) : Option (List Nat × List Nat) :=
  match cs with
  | 46 :: rest =>
    if rest.takeWhile isDigit = [] then none
    else some (46 :: rest.takeWhile isDigit, rest.dropWhile isDigit)
  | _ => some ([], cs)

/-- The optional exponent of a JSON number: `e` or `E`, an optional sign, at least one digit. -/
def parseExp (cs : List Nat) : Option (List Nat × List Nat) :=
  match cs with
  | [] => some ([], [])
  | c :: rest =>
    if c = 101 ∨ c = 69 then
      match rest with
      | [] => none
      | s :: rest1 =>
        if s = 43 ∨ s = 45 then
          if rest1.takeWhile isDigit = [] then none
          else some (c :: s :: rest1.takeWhile isDigit, rest1.dropWhile isDigit)
        else
          if rest.takeWhile isDigit = [] then none
          else some (c :: rest.takeWhile isDigit, rest.dropWhile isDigit)
    else some ([], cs)

/-- A JSON number; the result is its lexeme. -/
def parseNumber (cs : List Nat) : Option (JsVal × List Nat) :=
  let neg := match cs with
    | 45 :: _ => true
    | _ => false
  let cs1 := if neg then cs.drop 1 else cs
  match parseInt cs1 with
  | none => none
  | some (i, cs2) =>
    match parseFrac cs2 with
    | none => none
    | some (f, cs3) =>
      match parseExp cs3 with
      | none => none
      | some (e, cs4) => some (.num ((if neg then [45] else []) ++ i ++ f ++ e), cs4)

mutual
/-- A JSON value at the head of the text (white space already skipped). -/
def parseValue : Nat → List Nat → Option (JsVal × List Nat)
  | 0, _ => none
  | _ + 1, [] => none
  | fuel + 1, c :: rest =>
    if c = 34 then (parseString rest).map fun r => (.str r.1, r.2)
    else if c = 91 then
      match skipWs rest with
      | [] => none
      | d :: rest1 =>
        if d = 93 then some (.arr [], rest1)
        else (parseElements fuel (d :: rest1)).map fun r => (.arr r.1, r.2)
    else if c = 123 then
      match skipWs rest with
      | [] => none
      | d :: rest1 =>
        if d = 125 then some (.obj [], rest1)
        else (parseMembers fuel (d :: rest1)).map fun r => (.obj r.1, r.2)
    else if c = 110 then (stripLit [117, 108, 108] rest).map fun r => (.null, r)
    else if c = 116 then (stripLit [114, 117, 101] rest).map fun r => (.bool true, r)
    else if c = 102 then (stripLit [97, 108, 115, 101] rest).map fun r => (.bool false, r)
    else parseNumber (c :: rest)
/-- The elements of a non-empty array, up to and including the closing bracket. -/
def parseElements : Nat → List Nat → Option (List JsVal × List Nat)
  | 0, _ => none
  | fuel + 1, cs =>
    match parseValue fuel cs with
    | none => none
    | some (v, rest) =>
      match skipWs rest with
      | [] => none
      | d :: rest1 =>
        if d = 93 then some ([v], rest1)
        else if d = 44 then
          (parseElements fuel (skipWs rest1)).map fun r => (v :: r.1, r.2)
        else none
/-- The members of a non-empty object, up to and including the closing brace. -/
def parseMembers : Nat → List Nat → Option (List (JsString × JsVal) × List Nat)
  | 0, _ => none
  | _ + 1, [] => none
  | fuel + 1, q :: cs =>
    if q = 34 then
      match parseString cs with
      | none => none
      | some (k, rest) =>
        match skipWs rest with
        | [] => none
        | colon :: rest1 =>
          if colon = 58 then
            match parseValue fuel (skipWs rest1) with
            | none => none
            | some (v, rest2) =>
              match skipWs rest2 with
              | [] => none
              | d :: rest3 =>
                if d = 125 then some ([(k, v)], rest3)
                else if d = 44 then
                  (parseMembers fuel (skipWs rest3)).map fun r => ((k, v) :: r.1, r.2)
                else none
          else none
    else none
end

/-- The exception `JSON.parse` throws. -/
inductive JsError where
  | syntaxError
  deriving DecidableEq, Repr

/-- The function `JSON.parse(text)`: one JSON value surrounded by optional white space, or a
`SyntaxError`. The fuel `text.length + 1` exceeds the depth of nested parser calls a text
of that length can need. -/
def JSON.parse (text : JsString) : Except JsError JsVal :=
  match parseValue (text.length + 1) (skipWs text) with
  | none => .error .syntaxError
  | some (v, rest) => if skipWs rest = [] then .ok v else .error .syntaxError

/-! ## `JSON.stringify` on task arrays -/

/-- The two-character escapes of ECMA-262 `QuoteJSONString` (Table 75): the code unit that
follows the backslash. -/
def shortEscape (c : Nat) : Option Nat :=
  if c = 8 then some 98         -- \b
  else if c = 9 then some 116   -- \t
  else if c = 10 then some 110  -- \n
  else if c = 12 then some 102  -- \f
  else if c = 13 then some 114  -- \r
  else if c = 34 then some 34   -- \"
  else if c = 92 then some 92   -- \\
  else none

/-- Lower-case hexadecimal digit of a number below sixteen. -/
def hexDigit (n : Nat) : Nat :=
  if n < 10 then 48 + n else 87 + n

/-- ECMA-262 `UnicodeEscape`: `\u` and four lower-case hexadecimal digits. -/
def unicodeEscape (c : Nat) : List Nat :=
  [92, 117, hexDigit (c / 4096 % 16), hexDigit (c / 256 % 16), hexDigit (c / 16 % 16),
   hexDigit (c % 16)]

/-- Leading (high) surrogate code unit. -/
def isHighSurrogate (c : Nat) : Bool :=
  55296 ≤ c && c ≤ 56319

/-- Trailing (low) surrogate code unit. -/
def isLowSurrogate (c : Nat) : Bool :=
  56320 ≤ c && c ≤ 57343

/-- The body of ECMA-262 `QuoteJSONString`: control characters, the quote and the backslash
are escaped, a surrogate that is not part of a pair is escaped, everything else is copied.
`afterHigh` tells that the previous code unit was the first half of a pair. -/
def quoteChars : Bool → List Nat → List Nat
  | _, [] => []
  | afterHigh, c :: rest =>
    match shortEscape c with
    | some e => 92 :: e :: quoteChars false rest
    | none =>
      if c < 32 then unicodeEscape c ++ quoteChars false rest
      else if isHighSurrogate c then
        if (rest.head?.map isLowSurrogate).getD false then c :: quoteChars true rest
        else unicodeEscape c ++ quoteChars false rest
      else if isLowSurrogate c then
        if afterHigh then c :: quoteChars false rest
        else unicodeEscape c ++ quoteChars false rest
      else c :: quoteChars false rest

/-- ECMA-262 `QuoteJSONString`. -/
def quoteJSONString (s : JsString) : List Nat :=
  34 :: (quoteChars false s ++ [34])

/-- The text `JSON.stringify` gives for one task object. -/
def Task.stringify (t : Task) : List Nat :=
  utf16 "\x7b\"id\":" ++ quoteJSONString t.id ++ utf16 ",\"title\":" ++ quoteJSONString t.title ++
    utf16 ",\"completed\":" ++ (if t.completed then utf16 "true" else utf16 "false") ++
    utf16 "\x7d"

/-- The elements of the array text, separated by commas. -/
def stringifyElements : List Task → List Nat
  | [] => []
  | [t] => t.stringify
  | t :: ts => t.stringify ++ 44 :: stringifyElements ts

/-- The function `JSON.stringify(tasks)` for a task array (no indentation). -/
def JSON.stringify (tasks : List Task) : JsString :=
  91 :: (stringifyElements tasks ++ [93])

/-! ## The two effects of `App` -/

/-- Last member named `key` of a parsed object (a later duplicate overrides an earlier one). -/
def lookupMember (key : JsString) (members : List (JsString × JsVal)) : Option JsVal :=
  (members.reverse.find? fun m => m.1 = key).map Prod.snd

/-- The test `savedTasks && savedTasks.length > 0` (`App.js` line 14). For an object with a
`length` member the comparison goes through the numeric coercion of ECMA-262, which is not
modelled: it is the parameter `gtZero`. -/
def hasPositiveLength (gtZero : JsVal → Bool) : JsVal → Bool
  | .null => false                 -- falsy
  | .bool _ => false               -- `false` is falsy, `true.length` is undefined
  | .num _ => false                -- a number has no `length`
  | .str s => 0 < s.length         -- `""` is falsy
  | .arr xs => 0 < xs.length
  | .obj members =>
    match lookupMember (utf16 "length") members with
    | none => false
    | some v => gtZero v

/-- The argument of `JSON.parse` in the load effect: `localStorage.getItem` gives `null` for an
absent key, which `JSON.parse` converts to the text `null`. -/
def getItemText (slot : Option JsString) : JsString :=
  match slot with
  | none => utf16 "null"
  | some text => text

/-- The load effect (`App.js` lines 12-19): the value handed to `setTasks`, or the exception
that escapes the effect. `tasksData` is the imported `data/tasks.json`. -/
def load (gtZero : JsVal → Bool) (tasksData : JsVal) (slot : Option JsString) :
    Except JsError JsVal :=
  match JSON.parse (getItemText slot) with
  | .error e => .error e
  | .ok savedTasks =>
    if hasPositiveLength gtZero savedTasks then .ok savedTasks else .ok tasksData

/-- The save effect (`App.js` lines 22-24): the new content of the slot. -/
def save (tasks : List Task) : Option JsString :=
  some (JSON.stringify tasks)

/-- The state after the load effect adopted the task sequence `s`: the other cells keep their
`useState` initial values. -/
def loaded (s : List Task) : AppState :=
  { tasks := s, input := [], editId := none, editText := [] }

/-- States the program reaches: the load effect adopts a task array, then handlers run.
Each identifier produced by `uuidv4()` is new to the current sequence. -/
inductive Reachable (gtZero : JsVal → Bool) (tasksData : JsVal) (slot : Option JsString) :
    AppState → Prop where
  | start (s : List Task) (h : load gtZero tasksData slot = .ok (tasksToJs s)) :
      Reachable gtZero tasksData slot (loaded s)
  | setInput (value : JsString) {st : AppState} (h : Reachable gtZero tasksData slot st) :
      Reachable gtZero tasksData slot (setInput value st)
  | addTask (newId : JsString) {st : AppState} (h : Reachable gtZero tasksData slot st)
      (fresh : ∀ t ∈ st.tasks, t.id ≠ newId) :
      Reachable gtZero tasksData slot (addTask newId st)
  | toggleTask (id : JsString) {st : AppState} (h : Reachable gtZero tasksData slot st) :
      Reachable gtZero tasksData slot (toggleTask id st)
  | deleteTask (id : JsString) {st : AppState} (h : Reachable gtZero tasksData slot st) :
      Reachable gtZero tasksData slot (deleteTask id st)
  | startEdit (id currentText : JsString) {st : AppState}
      (h : Reachable gtZero tasksData slot st) :
      Reachable gtZero tasksData slot (startEdit id currentText st)
  | setEditText (value : JsString) {st : AppState} (h : Reachable gtZero tasksData slot st) :
      Reachable gtZero tasksData slot (setEditText value st)
  | saveEdit (id : JsString) {st : AppState} (h : Reachable gtZero tasksData slot st) :
      Reachable gtZero tasksData slot (saveEdit id st)
  | cancelEdit {st : AppState} (h : Reachable gtZero tasksData slot st) :
      Reachable gtZero tasksData slot (cancelEdit st)

/-! ## Sample data -/

/-- The snapshot of the scenario in the specification: one task `Buy milk` with id `1`. -/
def milk : List Task :=
  [{ id := utf16 "1", title := utf16 "Buy milk", completed := false }]

/-- A well-formed snapshot in which two tasks carry the same id. -/
def twins : List Task :=
  [{ id := utf16 "1", title := utf16 "Buy milk", completed := false },
   { id := utf16 "1", title := utf16 "Walk dog", completed := true }]

/-- A stand-in for the bundled `data/tasks.json`. -/
def fixtureExample : JsVal :=
  tasksToJs [{ id := utf16 "f1", title := utf16 "Learn React", completed := false }]

/-- A session in which `Buy milk` is being edited and the add field holds ` Walk dog `. -/
def session : AppState :=
  { tasks := milk, input := utf16 " Walk dog ", editId := some (utf16 "1"),
    editText := utf16 "Buy oat milk " }

/-- The session `session` with both text fields holding only blanks. -/
def blankSession : AppState :=
  { tasks := milk, input := utf16 "   ", editId := some (utf16 "1"), editText := utf16 " \t" }

/-! ## Lemmas on the JSON text of a task array -/

theorem hexVal_hexDigit : ∀ k, k < 16 → hexVal (hexDigit k) = some k := by
  decide

theorem parseHex4_unicodeEscape (c : Nat) (hc : c < 65536) (rest : List Nat) :
    parseHex4 ([hexDigit (c / 4096 % 16), hexDigit (c / 256 % 16), hexDigit (c / 16 % 16),
      hexDigit (c % 16)] ++ rest) = some (c, rest) := by
  have h1 := hexVal_hexDigit (c / 4096 % 16) (Nat.mod_lt _ (by decide))
  have h2 := hexVal_hexDigit (c / 256 % 16) (Nat.mod_lt _ (by decide))
  have h3 := hexVal_hexDigit (c / 16 % 16) (Nat.mod_lt _ (by decide))
  have h4 := hexVal_hexDigit (c % 16) (Nat.mod_lt _ (by decide))
  simp only [List.cons_append, List.nil_append, parseHex4, h1, h2, h3, h4]
  congr 2
  omega

theorem unescape_shortEscape {c e : Nat} (h : shortEscape c = some e) :
    e ≠ 117 ∧ unescape e = some c := by
  unfold shortEscape at h
  split_ifs at h <;> simp only [Option.some.injEq, reduceCtorEq] at h <;> subst h <;>
    subst_vars <;> simp [unescape]

theorem shortEscape_none {c : Nat} (h : shortEscape c = none) : c ≠ 34 ∧ c ≠ 92 := by
  unfold shortEscape at h
  split_ifs at h
  constructor <;> assumption

theorem parseChars_unicodeEscape (fuel c : Nat) (hc : c < 65536) (rest : List Nat) :
    parseChars (fuel + 1) (unicodeEscape c ++ rest) =
      (parseChars fuel rest).map fun r => (c :: r.1, r.2) := by
  have h := parseHex4_unicodeEscape c hc rest
  simp only [List.cons_append, List.nil_append] at h
  simp [unicodeEscape, parseChars, h]

theorem parseChars_quoteChars (s : JsString) :
    ∀ (afterHigh : Bool) (rest : List Nat) (fuel : Nat),
      (quoteChars afterHigh s).length < fuel →
      parseChars fuel (quoteChars afterHigh s ++ 34 :: rest) = some (s, rest) := by
  induction s with
  | nil =>
    intro afterHigh rest fuel hfuel
    obtain ⟨k, rfl⟩ : ∃ k, fuel = k + 1 := ⟨fuel - 1, by omega⟩
    simp [quoteChars, parseChars]
  | cons c s ih =>
    intro afterHigh rest fuel hfuel
    obtain ⟨k, rfl⟩ : ∃ k, fuel = k + 1 := ⟨fuel - 1, by omega⟩
    unfold quoteChars at hfuel ⊢
    cases hse : shortEscape c with
    | some e =>
      obtain ⟨he, hun⟩ := unescape_shortEscape hse
      simp only [hse, List.length_cons] at hfuel
      have hrec := ih false rest k (by omega)
      simp [parseChars, he, hun, hrec]
    | none =>
      obtain ⟨hq, hb⟩ := shortEscape_none hse
      simp only [hse] at hfuel ⊢
      split_ifs at hfuel ⊢ with h32 hhigh hnext hlow hafter
      · rw [List.append_assoc, parseChars_unicodeEscape k c (by omega)]
        simp [unicodeEscape] at hfuel
        rw [ih false rest k (by omega)]; rfl
      · simp only [List.length_cons] at hfuel
        simp [parseChars, hq, hb, h32, ih true rest k (by omega)]
      · rw [List.append_assoc, parseChars_unicodeEscape k c
          (by simp [isHighSurrogate] at hhigh; omega)]
        simp [unicodeEscape] at hfuel
        rw [ih false rest k (by omega)]; rfl
      · simp only [List.length_cons] at hfuel
        simp [parseChars, hq, hb, h32, ih false rest k (by omega)]
      · rw [List.append_assoc, parseChars_unicodeEscape k c
          (by simp [isLowSurrogate] at hlow; omega)]
        simp [unicodeEscape] at hfuel
        rw [ih false rest k (by omega)]; rfl
      · simp only [List.length_cons] at hfuel
        simp [parseChars, hq, hb, h32, ih false rest k (by omega)]

theorem parseString_quoteChars (s : JsString) (rest : List Nat) :
    parseString (quoteChars false s ++ 34 :: rest) = some (s, rest) := by
  unfold parseString
  apply parseChars_quoteChars
  simp

theorem parseString_key (key : JsString) (rest : List Nat)
    (h : quoteChars false key = key) :
    parseString (key ++ 34 :: rest) = some (key, rest) := by
  have := parseString_quoteChars key rest
  rwa [h] at this

theorem Task.stringify_eq (t : Task) (rest : List Nat) :
    t.stringify ++ rest =
      123 :: 34 :: ([105, 100] ++ 34 :: 58 :: 34 :: (quoteChars false t.id ++ 34 :: 44 :: 34 ::
        ([116, 105, 116, 108, 101] ++ 34 :: 58 :: 34 :: (quoteChars false t.title ++ 34 ::
          44 :: 34 :: ([99, 111, 109, 112, 108, 101, 116, 101, 100] ++ 34 :: 58 ::
            ((if t.completed then [116, 114, 117, 101] else [102, 97, 108, 115, 101]) ++
              125 :: rest)))))) := by
  have h1 : utf16 "\x7b\"id\":" = [123, 34, 105, 100, 34, 58] := rfl
  have h2 : utf16 ",\"title\":" = [44, 34, 116, 105, 116, 108, 101, 34, 58] := rfl
  have h3 : utf16 ",\"completed\":" =
      [44, 34, 99, 111, 109, 112, 108, 101, 116, 101, 100, 34, 58] := rfl
  have h4 : utf16 "true" = [116, 114, 117, 101] := rfl
  have h5 : utf16 "false" = [102, 97, 108, 115, 101] := rfl
  have h6 : utf16 "\x7d" = [125] := rfl
  simp only [Task.stringify, quoteJSONString, h1, h2, h3, h4, h5, h6, List.append_assoc,
    List.cons_append, List.nil_append]

theorem skipWs_cons (c : Nat) (cs : List Nat) (h : isJsonWs c = false) :
    skipWs (c :: cs) = c :: cs := by
  simp [skipWs, h]

theorem parseValue_string (f : Nat) (cs : List Nat) :
    parseValue (f + 1) (34 :: cs) = (parseString cs).map fun r => (.str r.1, r.2) := by
  simp [parseValue]

theorem parseValue_true (f : Nat) (cs : List Nat) :
    parseValue (f + 1) ([116, 114, 117, 101] ++ cs) = some (.bool true, cs) := by
  simp [parseValue, stripLit]

theorem parseValue_false (f : Nat) (cs : List Nat) :
    parseValue (f + 1) ([102, 97, 108, 115, 101] ++ cs) = some (.bool false, cs) := by
  simp [parseValue, stripLit]

theorem parseValue_object (f d : Nat) (cs : List Nat) (hws : isJsonWs d = false)
    (hd : d ≠ 125) :
    parseValue (f + 1) (123 :: d :: cs) =
      (parseMembers f (d :: cs)).map fun r => (.obj r.1, r.2) := by
  simp [parseValue, skipWs_cons d cs hws, hd]

theorem parseMembers_more (f : Nat) (cs rest1 rest3 : List Nat) (key : JsString) (v : JsVal)
    (hkey : parseString cs = some (key, 58 :: rest1))
    (hval : parseValue f (skipWs rest1) = some (v, 44 :: rest3)) :
    parseMembers (f + 1) (34 :: cs) =
      (parseMembers f (skipWs rest3)).map fun r => ((key, v) :: r.1, r.2) := by
  rw [parseMembers]
  simp [hkey, hval, skipWs, isJsonWs]

theorem parseMembers_last (f : Nat) (cs rest1 rest3 : List Nat) (key : JsString) (v : JsVal)
    (hkey : parseString cs = some (key, 58 :: rest1))
    (hval : parseValue f (skipWs rest1) = some (v, 125 :: rest3)) :
    parseMembers (f + 1) (34 :: cs) = some ([(key, v)], rest3) := by
  rw [parseMembers]
  simp [hkey, hval, skipWs, isJsonWs]

theorem parseValue_task (t : Task) (k : Nat) (rest : List Nat) :
    parseValue (k + 5) (t.stringify ++ rest) = some (t.toJs, rest) := by
  have k1 : utf16 "id" = [105, 100] := rfl
  have k2 : utf16 "title" = [116, 105, 116, 108, 101] := rfl
  have k3 : utf16 "completed" = [99, 111, 109, 112, 108, 101, 116, 101, 100] := rfl
  have hws : ∀ cs, skipWs (34 :: cs) = 34 :: cs := fun cs => skipWs_cons 34 cs rfl
  rw [Task.stringify_eq, parseValue_object _ 34 _ rfl (by decide)]
  rw [parseMembers_more (k + 3) _ _ _ [105, 100] (.str t.id)
    (parseString_key [105, 100] _ rfl)
    (by rw [hws, parseValue_string, parseString_quoteChars]; rfl)]
  rw [hws, parseMembers_more (k + 2) _ _ _ [116, 105, 116, 108, 101] (.str t.title)
    (parseString_key [116, 105, 116, 108, 101] _ rfl)
    (by rw [hws, parseValue_string, parseString_quoteChars]; rfl)]
  rw [hws, parseMembers_last (k + 1) _ _ _ [99, 111, 109, 112, 108, 101, 116, 101, 100]
    (.bool t.completed) (parseString_key [99, 111, 109, 112, 108, 101, 116, 101, 100] _ rfl)
    (by
      cases t.completed
      · rw [if_neg (by decide)]
        exact (congrArg _ (skipWs_cons 102 _ rfl)).trans (parseValue_false k _)
      · rw [if_pos rfl]
        exact (congrArg _ (skipWs_cons 116 _ rfl)).trans (parseValue_true k _))]
  simp [Task.toJs, k1, k2, k3]

theorem parseElements_last (f : Nat) (cs rest : List Nat) (v : JsVal)
    (hval : parseValue f cs = some (v, 93 :: rest)) :
    parseElements (f + 1) cs = some ([v], rest) := by
  rw [parseElements]
  simp [hval, skipWs, isJsonWs]

theorem parseElements_more (f : Nat) (cs rest : List Nat) (v : JsVal)
    (hval : parseValue f cs = some (v, 44 :: rest)) :
    parseElements (f + 1) cs =
      (parseElements f (skipWs rest)).map fun r => (v :: r.1, r.2) := by
  rw [parseElements]
  simp [hval, skipWs, isJsonWs]

theorem parseValue_array (f d : Nat) (cs : List Nat) (hws : isJsonWs d = false)
    (hd : d ≠ 93) :
    parseValue (f + 1) (91 :: d :: cs) =
      (parseElements f (d :: cs)).map fun r => (.arr r.1, r.2) := by
  simp [parseValue, skipWs_cons d cs hws, hd]

theorem stringifyElements_cons (t : Task) (ts : List Task) (rest : List Nat) :
    ∃ tail, stringifyElements (t :: ts) ++ rest = 123 :: tail := by
  cases ts with
  | nil => exact ⟨_, Task.stringify_eq t rest⟩
  | cons t1 ts =>
    rw [stringifyElements, List.append_assoc, Task.stringify_eq]
    · exact ⟨_, rfl⟩
    · intro h; cases h

theorem Task.stringify_length (t : Task) : 6 ≤ t.stringify.length := by
  have h := congrArg List.length (Task.stringify_eq t [])
  simp only [List.append_nil, List.length_cons, List.length_append] at h
  omega

theorem stringifyElements_length (t : Task) (ts : List Task) :
    ts.length + 6 ≤ (stringifyElements (t :: ts)).length := by
  induction ts generalizing t with
  | nil => simpa [stringifyElements] using t.stringify_length
  | cons t1 ts ih =>
    have h1 := ih t1
    have h2 := t.stringify_length
    rw [stringifyElements]
    · simp only [List.length_append, List.length_cons] at h1 ⊢
      omega
    · intro h; cases h

theorem parseElements_tasks (ts : List Task) :
    ∀ (t : Task) (fuel : Nat) (rest : List Nat), ts.length + 6 ≤ fuel →
      parseElements fuel (stringifyElements (t :: ts) ++ 93 :: rest) =
        some ((t :: ts).map Task.toJs, rest) := by
  induction ts with
  | nil =>
    intro t fuel rest hfuel
    obtain ⟨k, rfl⟩ : ∃ k, fuel = k + 5 + 1 := ⟨fuel - 6, by simp at hfuel; omega⟩
    rw [parseElements_last (k + 5) _ rest t.toJs (by
      simpa [stringifyElements] using parseValue_task t k (93 :: rest))]
    rfl
  | cons t1 ts ih =>
    intro t fuel rest hfuel
    obtain ⟨k, rfl⟩ : ∃ k, fuel = k + 5 + 1 := ⟨fuel - 6, by simp at hfuel; omega⟩
    have hsplit : stringifyElements (t :: t1 :: ts) ++ 93 :: rest =
        t.stringify ++ 44 :: (stringifyElements (t1 :: ts) ++ 93 :: rest) := by
      rw [stringifyElements]
      · simp
      · intro h; cases h
    obtain ⟨tail, htail⟩ := stringifyElements_cons t1 ts (93 :: rest)
    rw [hsplit, parseElements_more (k + 5) _ _ t.toJs (parseValue_task t k _)]
    have hskip : skipWs (stringifyElements (t1 :: ts) ++ 93 :: rest) =
        stringifyElements (t1 :: ts) ++ 93 :: rest := by
      rw [htail]; exact skipWs_cons 123 tail rfl
    rw [hskip, ih t1 (k + 5) rest (by simp at hfuel ⊢; omega)]
    rfl

theorem injective_tasksToJs {s1 s2 : List Task} (h : tasksToJs s1 = tasksToJs s2) :
    s1 = s2 := by
  have hinj : Function.Injective Task.toJs := by
    intro a b hab
    cases a; cases b
    simp only [Task.toJs, JsVal.obj.injEq, List.cons.injEq, Prod.mk.injEq, JsVal.str.injEq,
      JsVal.bool.injEq, and_true, true_and] at hab
    obtain ⟨h1, h2, h3⟩ := hab
    subst h1 h2 h3
    rfl
  simp only [tasksToJs, JsVal.arr.injEq] at h
  exact List.map_injective_iff.mpr hinj h

theorem parse_stringify (s : List Task) :
    JSON.parse (JSON.stringify s) = .ok (tasksToJs s) := by
  cases s with
  | nil => rfl
  | cons t ts =>
    obtain ⟨tail, htail⟩ := stringifyElements_cons t ts [93]
    have hlen := stringifyElements_length t ts
    have hparse := parseElements_tasks ts t ((stringifyElements (t :: ts)).length + 2) []
      (by omega)
    unfold JSON.parse JSON.stringify
    rw [skipWs_cons 91 _ rfl]
    simp only [List.length_cons, List.length_append, List.length_nil]
    rw [htail] at hparse ⊢
    rw [parseValue_array _ 123 _ rfl (by decide), hparse]
    rfl

/-! ## Lemmas on the handlers -/

theorem map_id_toggle (id : JsString) (s : List Task) :
    (s.map fun task => if task.id = id then { task with completed := !task.completed }
      else task).map Task.id = s.map Task.id := by
  rw [List.map_map]
  apply List.map_congr_left
  intro t _
  by_cases h : t.id = id <;> simp [h]

theorem map_id_retitle (id text : JsString) (s : List Task) :
    (s.map fun task => if task.id = id then { task with title := text } else task).map Task.id =
      s.map Task.id := by
  rw [List.map_map]
  apply List.map_congr_left
  intro t _
  by_cases h : t.id = id <;> simp [h]

theorem length_filter_add_countP (id : JsString) (s : List Task) :
    (s.filter fun task => task.id ≠ id).length + s.countP (fun task => task.id = id) =
      s.length := by
  induction s with
  | nil => rfl
  | cons t s ih =>
    by_cases h : t.id = id
    · rw [List.filter_cons_of_neg (by simpa using h), List.countP_cons_of_pos _ _ (by simpa using h),
        List.length_cons]
      omega
    · rw [List.filter_cons_of_pos (by simpa using h), List.countP_cons_of_neg _ _ (by simpa using h),
        List.length_cons, List.length_cons]
      omega

theorem length_filter_ne_id (id : JsString) (s : List Task) :
    (s.filter fun task => task.id ≠ id).length =
      s.length - s.countP (fun task => task.id = id) := by
  have h := length_filter_add_countP id s
  omega

theorem countP_id_eq_one (id : JsString) (s : List Task) (hnd : (s.map Task.id).Nodup)
    (hmem : ∃ t ∈ s, t.id = id) : s.countP (fun task => task.id = id) = 1 := by
  induction s with
  | nil => obtain ⟨t, ht, _⟩ := hmem; cases ht
  | cons t s ih =>
    rw [List.map_cons, List.nodup_cons] at hnd
    by_cases h : t.id = id
    · have hz : s.countP (fun task => decide (task.id = id)) = 0 := by
        rw [List.countP_eq_zero]
        intro u hu hid
        exact hnd.1 (List.mem_map.mpr ⟨u, hu, by rw [h]; simpa using hid⟩)
      simp [List.countP_cons, h, hz]
    · obtain ⟨u, hu, hid⟩ := hmem
      rcases List.mem_cons.mp hu with rfl | hu
      · exact absurd hid h
      · simp [List.countP_cons, h, ih hnd.2 ⟨u, hu, hid⟩]

theorem load_save (gtZero : JsVal → Bool) (tasksData : JsVal) (s : List Task) (hs : s ≠ []) :
    load gtZero tasksData (save s) = .ok (tasksToJs s) := by
  cases s with
  | nil => exact absurd rfl hs
  | cons t ts => simp [load, save, getItemText, parse_stringify, tasksToJs, hasPositiveLength]

/-! ## Adding a task -/

/-- C1: when the trimmed input text is not empty, `addTask` yields the old sequence followed by
one new task: the length grows by one, the first `|s|` tasks are the old ones in order, the last
task carries the generated identifier, the input text as typed (not trimmed) and
`completed = false`, and the input field is reset to the empty string. -/
theorem addTask_appends (newId : JsString) (st : AppState) (h : trim st.input ≠ []) :
    (addTask newId st).tasks =
        st.tasks ++ [{ id := newId, title := st.input, completed := false }] ∧
      (addTask newId st).tasks.length = st.tasks.length + 1 ∧
      (addTask newId st).tasks.take st.tasks.length = st.tasks ∧
      (addTask newId st).tasks.getLast? =
        some { id := newId, title := st.input, completed := false } ∧
      (addTask newId st).input = [] := by
  simp [addTask, h]

theorem addTask_appends_witness :
    trim session.input ≠ [] ∧
      (addTask (utf16 "2") session).tasks =
        milk ++ [{ id := utf16 "2", title := utf16 " Walk dog ", completed := false }] ∧
      (addTask (utf16 "2") session).tasks.length = 2 ∧
      (addTask (utf16 "2") session).input = [] :=
  have h := addTask_appends (utf16 "2") session (by decide)
  ⟨by decide, h.1, h.2.1, h.2.2.2.2⟩

/-- C7: when the input text is empty or only white space, `addTask` returns the state as it
was: the task sequence is unchanged and the input text is kept. -/
theorem addTask_blank_noop (newId : JsString) (st : AppState) (h : trim st.input = []) :
    addTask newId st = st := by
  simp [addTask, h]

theorem addTask_blank_noop_witness :
    trim (utf16 "") = [] ∧ trim (utf16 "   ") = [] ∧
      addTask (utf16 "2") (setInput (utf16 "") session) = setInput (utf16 "") session ∧
      addTask (utf16 "2") blankSession = blankSession :=
  ⟨by decide, by decide,
    addTask_blank_noop (utf16 "2") (setInput (utf16 "") session) (by decide),
    addTask_blank_noop (utf16 "2") blankSession (by decide)⟩

/-! ## Toggling a task -/

/-- C2: `toggleTask id` keeps the length, the ids and the titles in order; at every position
the task is the old one with `completed` negated when its id is `id`, and the old one itself
otherwise; an id that no task carries leaves the state unchanged; toggling twice gives back the
original state. -/
theorem toggleTask_flips (id : JsString) (st : AppState) :
    (toggleTask id st).tasks.length = st.tasks.length ∧
      (toggleTask id st).tasks.map Task.id = st.tasks.map Task.id ∧
      (toggleTask id st).tasks.map Task.title = st.tasks.map Task.title ∧
      (∀ (i : Nat) (t : Task), st.tasks[i]? = some t →
        (toggleTask id st).tasks[i]? =
          some (if t.id = id then { t with completed := !t.completed } else t)) ∧
      ((∀ t ∈ st.tasks, t.id ≠ id) → toggleTask id st = st) ∧
      toggleTask id (toggleTask id st) = st := by
  refine ⟨by simp [toggleTask], map_id_toggle id st.tasks, ?_, ?_, ?_, ?_⟩
  · simp only [toggleTask, List.map_map]
    apply List.map_congr_left
    intro t _
    by_cases h : t.id = id <;> simp [h]
  · intro i t hi
    simp [toggleTask, hi]
  · intro habsent
    cases st with
    | mk tasks input editId editText =>
      simp only [toggleTask, AppState.mk.injEq, and_true]
      conv_rhs => rw [← List.map_id tasks]
      apply List.map_congr_left
      intro t ht
      simp [habsent t ht]
  · cases st with
    | mk tasks input editId editText =>
      simp only [toggleTask, List.map_map, AppState.mk.injEq, and_true]
      conv_rhs => rw [← List.map_id tasks]
      apply List.map_congr_left
      intro t _
      cases t with
      | mk tid title completed =>
        by_cases h : tid = id <;> simp [h]

theorem toggleTask_flips_witness :
    (toggleTask (utf16 "1") session).tasks =
        [{ id := utf16 "1", title := utf16 "Buy milk", completed := true }] ∧
      toggleTask (utf16 "9") session = session ∧
      toggleTask (utf16 "1") (toggleTask (utf16 "1") session) = session :=
  have h := toggleTask_flips (utf16 "1") session
  ⟨by decide, (toggleTask_flips (utf16 "9") session).2.2.2.2.1 (by decide), h.2.2.2.2.2⟩

/-! ## Deleting a task -/

/-- C3 as stated fails: in the sequence `twins` two tasks carry the id `1`; `deleteTask` removes
both, so the length drops by two and not by one. -/
theorem deleteTask_length_counterexample :
    (∃ t ∈ (loaded twins).tasks, t.id = utf16 "1") ∧
      (deleteTask (utf16 "1") (loaded twins)).tasks = [] ∧
      (deleteTask (utf16 "1") (loaded twins)).tasks.length ≠ (loaded twins).tasks.length - 1 := by
  decide

/-- C3 amended: `deleteTask id` removes every task whose id is `id`: the length drops by the
number of such tasks (by exactly one when some task has the id and the ids are pairwise
distinct), no task with that id remains, an id that no task carries leaves the state unchanged,
and the result is the old sequence with those tasks left out: a sublist of it (same tasks, same
relative order) that keeps every task with another id; the other cells are untouched. -/
theorem deleteTask_removes (id : JsString) (st : AppState) :
    (deleteTask id st).tasks.length =
        st.tasks.length - st.tasks.countP (fun task => task.id = id) ∧
      ((st.tasks.map Task.id).Nodup → (∃ t ∈ st.tasks, t.id = id) →
        (deleteTask id st).tasks.length = st.tasks.length - 1) ∧
      (∀ t ∈ (deleteTask id st).tasks, t.id ≠ id) ∧
      ((∀ t ∈ st.tasks, t.id ≠ id) → deleteTask id st = st) ∧
      (deleteTask id st).tasks.Sublist st.tasks ∧
      (∀ t ∈ st.tasks, t.id ≠ id → t ∈ (deleteTask id st).tasks) ∧
      (deleteTask id st).input = st.input ∧ (deleteTask id st).editId = st.editId ∧
      (deleteTask id st).editText = st.editText := by
  refine ⟨length_filter_ne_id id st.tasks, ?_, ?_, ?_, ?_, ?_, rfl, rfl, rfl⟩
  · intro hnd hmem
    have h := length_filter_ne_id id st.tasks
    rw [countP_id_eq_one id st.tasks hnd hmem] at h
    exact h
  · intro t ht
    simpa using (List.mem_filter.mp ht).2
  · intro habsent
    cases st with
    | mk tasks input editId editText =>
      simp only [deleteTask, AppState.mk.injEq, and_true]
      apply List.filter_eq_self.mpr
      intro t ht
      simpa using habsent t ht
  · exact List.filter_sublist _
  · intro t ht hne
    exact List.mem_filter.mpr ⟨ht, by simpa using hne⟩

theorem deleteTask_removes_witness :
    (session.tasks.map Task.id).Nodup ∧ (∃ t ∈ session.tasks, t.id = utf16 "1") ∧
      (deleteTask (utf16 "1") session).tasks.length = session.tasks.length - 1 ∧
      deleteTask (utf16 "9") session = session :=
  ⟨by decide, by decide,
    (deleteTask_removes (utf16 "1") session).2.1 (by decide) (by decide),
    (deleteTask_removes (utf16 "9") session).2.2.2.1 (by decide)⟩

/-! ## Editing a task -/

/-- C4: when the edit draft is `(id, Y)` and `Y` is not empty after trimming, every call the
edit-mode controls make is `saveEdit id`, and `saveEdit id` keeps the length, the ids and the
`completed` flags in order; at every position the task is the old one with its title replaced
by `Y` as typed when its id is `id`, and the old one itself otherwise; the draft is cleared
(`editId = null`, `editText = ""`) and the input field is untouched. -/
theorem saveEdit_commits (id : JsString) (st : AppState) (hdraft : st.editId = some id)
    (htext : trim st.editText ≠ []) :
    (∀ id2 ∈ saveEditCalls st, id2 = id) ∧
      (saveEdit id st).tasks.length = st.tasks.length ∧
      (saveEdit id st).tasks.map Task.id = st.tasks.map Task.id ∧
      (saveEdit id st).tasks.map Task.completed = st.tasks.map Task.completed ∧
      (∀ (i : Nat) (t : Task), st.tasks[i]? = some t →
        (saveEdit id st).tasks[i]? =
          some (if t.id = id then { t with title := st.editText } else t)) ∧
      (saveEdit id st).editId = none ∧ (saveEdit id st).editText = [] ∧
      (saveEdit id st).input = st.input := by
  refine ⟨?_, by simp [saveEdit, htext], ?_, ?_, ?_, by simp [saveEdit, htext],
    by simp [saveEdit, htext], by simp [saveEdit, htext]⟩
  · intro id2 hid2
    obtain ⟨t, ht, rfl⟩ := List.mem_map.mp hid2
    have hsel := (List.mem_filter.mp ht).2
    rw [hdraft] at hsel
    exact (show id = t.id by simpa using hsel).symm
  · simpa [saveEdit, htext] using map_id_retitle id st.editText st.tasks
  · simp only [saveEdit, htext, if_false, List.map_map]
    apply List.map_congr_left
    intro t _
    by_cases h : t.id = id <;> simp [h]
  · intro i t hi
    simp [saveEdit, htext, hi]

theorem saveEdit_commits_witness :
    session.editId = some (utf16 "1") ∧ trim session.editText ≠ [] ∧
      saveEditCalls session = [utf16 "1"] ∧
      (saveEdit (utf16 "1") session).tasks =
        [{ id := utf16 "1", title := utf16 "Buy oat milk ", completed := false }] ∧
      (saveEdit (utf16 "1") session).editId = none ∧
      (saveEdit (utf16 "1") session).editText = [] :=
  have h := saveEdit_commits (utf16 "1") session (by decide) (by decide)
  ⟨by decide, by decide, by decide, by decide, h.2.2.2.2.2.1, h.2.2.2.2.2.2.1⟩

/-- C8: when the draft text is empty after trimming, `saveEdit` returns the state as it was:
the task sequence is unchanged and `editId` and `editText` keep their values. -/
theorem saveEdit_blank_noop (id : JsString) (st : AppState) (h : trim st.editText = []) :
    saveEdit id st = st ∧ (saveEdit id st).tasks = st.tasks ∧
      (saveEdit id st).editId = st.editId ∧ (saveEdit id st).editText = st.editText := by
  simp [saveEdit, h]

theorem saveEdit_blank_noop_witness :
    trim blankSession.editText = [] ∧ saveEdit (utf16 "1") blankSession = blankSession ∧
      (saveEdit (utf16 "1") blankSession).editId = some (utf16 "1") :=
  have h := saveEdit_blank_noop (utf16 "1") blankSession (by decide)
  ⟨by decide, h.1, h.2.2.1⟩

/-! ## Loading at startup -/

/-- C5: the load effect adopts a stored snapshot with at least one task verbatim (whether the
slot was written by the save effect or holds any text that parses to a non-empty array), with
no part of the fixture; when the slot is absent or holds an empty array it adopts exactly the
bundled fixture. -/
theorem load_snapshot_or_fixture (gtZero : JsVal → Bool) (tasksData : JsVal) :
    (∀ s : List Task, s ≠ [] → load gtZero tasksData (save s) = .ok (tasksToJs s)) ∧
      (∀ (text : JsString) (x : JsVal) (xs : List JsVal),
        JSON.parse text = .ok (.arr (x :: xs)) →
          load gtZero tasksData (some text) = .ok (.arr (x :: xs))) ∧
      load gtZero tasksData none = .ok tasksData ∧
      load gtZero tasksData (save []) = .ok tasksData ∧
      (∀ text : JsString, JSON.parse text = .ok (.arr []) →
        load gtZero tasksData (some text) = .ok tasksData) := by
  refine ⟨fun s hs => load_save gtZero tasksData s hs, ?_, rfl, rfl, ?_⟩
  · intro text x xs h
    simp [load, getItemText, h, hasPositiveLength]
  · intro text h
    simp [load, getItemText, h, hasPositiveLength]

theorem load_snapshot_or_fixture_witness :
    load (fun _ => false) fixtureExample
        (some (utf16 "[\x7b\"id\":\"1\",\"title\":\"Buy milk\",\"completed\":false\x7d]")) =
        .ok (tasksToJs milk) ∧
      load (fun _ => false) fixtureExample none = .ok fixtureExample ∧
      load (fun _ => false) fixtureExample (some (utf16 "[]")) = .ok fixtureExample :=
  have h := load_snapshot_or_fixture (fun _ => false) fixtureExample
  ⟨h.1 milk (by decide), h.2.2.1, h.2.2.2.1⟩

/-- C6 as stated fails: on the malformed content `oops` the load effect ends with the
`SyntaxError` of `JSON.parse` and adopts nothing, and the content `[1]`, which is not a task
array, is adopted as it is; in neither case is the fixture loaded. -/
theorem load_malformed_counterexample :
    load (fun _ => false) fixtureExample (some (utf16 "oops")) = .error .syntaxError ∧
      load (fun _ => false) fixtureExample (some (utf16 "oops")) ≠ .ok fixtureExample ∧
      load (fun _ => false) fixtureExample (some (utf16 "[1]")) = .ok (.arr [.num [49]]) ∧
      load (fun _ => false) fixtureExample (some (utf16 "[1]")) ≠ .ok fixtureExample := by
  have h1 : load (fun _ => false) fixtureExample (some (utf16 "oops")) =
      .error .syntaxError := rfl
  have h2 : load (fun _ => false) fixtureExample (some (utf16 "[1]")) =
      .ok (.arr [.num [49]]) := rfl
  refine ⟨h1, ?_, h2, ?_⟩
  · rw [h1]; intro h; cases h
  · rw [h2]; intro h; cases h

/-- C6 amended: when the slot content is not valid JSON, the load effect raises the
`SyntaxError` of `JSON.parse` and adopts nothing; when it is valid JSON whose value fails the
test `savedTasks && savedTasks.length > 0` (`null`, a boolean, a number, `""`, `[]`, an object
without a `length` member), the fixture is adopted; any other valid value is adopted as it
is. -/
theorem load_malformed_raises (gtZero : JsVal → Bool) (tasksData : JsVal) (text : JsString) :
    (∀ e : JsError, JSON.parse text = .error e →
        load gtZero tasksData (some text) = .error e) ∧
      (∀ v : JsVal, JSON.parse text = .ok v → hasPositiveLength gtZero v = false →
        load gtZero tasksData (some text) = .ok tasksData) ∧
      (∀ v : JsVal, JSON.parse text = .ok v → hasPositiveLength gtZero v = true →
        load gtZero tasksData (some text) = .ok v) := by
  refine ⟨?_, ?_, ?_⟩
  · intro e h
    simp [load, getItemText, h]
  · intro v h hv
    simp [load, getItemText, h, hv]
  · intro v h hv
    simp [load, getItemText, h, hv]

theorem load_malformed_raises_witness :
    JSON.parse (utf16 "oops") = .error .syntaxError ∧
      load (fun _ => false) fixtureExample (some (utf16 "oops")) = .error .syntaxError ∧
      JSON.parse (utf16 " 12.5e3 ") = .ok (.num (utf16 "12.5e3")) ∧
      load (fun _ => false) fixtureExample (some (utf16 " 12.5e3 ")) = .ok fixtureExample :=
  ⟨rfl, (load_malformed_raises (fun _ => false) fixtureExample (utf16 "oops")).1 _ rfl, rfl,
    (load_malformed_raises (fun _ => false) fixtureExample (utf16 " 12.5e3 ")).2.1 _ rfl rfl⟩

/-! ## Persistence round trip -/

/-- C10: for every task sequence, the empty one included, the text written by the save effect
is parsed by `JSON.parse`, as the load effect calls it, into the array of the same tasks: same
ids, titles and `completed` flags in the same order, and no other task sequence has that
value. -/
theorem stringify_parse_roundtrip (s : List Task) :
    JSON.parse (JSON.stringify s) = .ok (tasksToJs s) ∧
      JSON.parse (getItemText (save s)) = .ok (tasksToJs s) ∧
      (∀ s2 : List Task, JSON.parse (JSON.stringify s) = .ok (tasksToJs s2) → s2 = s) := by
  refine ⟨parse_stringify s, parse_stringify s, ?_⟩
  intro s2 h
  rw [parse_stringify] at h
  exact (injective_tasksToJs (Except.ok.inj h)).symm

theorem stringify_parse_roundtrip_witness :
    JSON.stringify twins =
        utf16 ("[\x7b\"id\":\"1\",\"title\":\"Buy milk\",\"completed\":false\x7d," ++
          "\x7b\"id\":\"1\",\"title\":\"Walk dog\",\"completed\":true\x7d]") ∧
      JSON.parse (JSON.stringify twins) = .ok (tasksToJs twins) ∧
      JSON.parse (JSON.stringify []) = .ok (tasksToJs []) :=
  ⟨by decide, (stringify_parse_roundtrip twins).1, (stringify_parse_roundtrip []).1⟩

/-! ## Identifier uniqueness -/

/-- C9 as stated fails: the slot may hold the well-formed snapshot `twins`, in which two tasks
carry the id `1`; the load effect adopts it verbatim, so the state right after startup already
has two tasks with the same id. -/
theorem reachable_duplicate_ids_counterexample :
    Reachable (fun _ => false) fixtureExample (save twins) (loaded twins) ∧
      ¬ ((loaded twins).tasks.map Task.id).Nodup :=
  ⟨Reachable.start twins (load_save _ _ twins (by decide)), by decide⟩

/-- C9 amended: provided the task sequence adopted by the load effect (fixture or snapshot) has
pairwise distinct ids and every identifier generated by `addTask` is new to the current
sequence, every reachable state has pairwise distinct ids. -/
theorem reachable_ids_nodup (gtZero : JsVal → Bool) (tasksData : JsVal)
    (slot : Option JsString)
    (hload : ∀ s : List Task, load gtZero tasksData slot = .ok (tasksToJs s) →
      (s.map Task.id).Nodup)
    (st : AppState) (h : Reachable gtZero tasksData slot st) :
    (st.tasks.map Task.id).Nodup := by
  induction h with
  | start s hs => exact hload s hs
  | setInput value _ ih => exact ih
  | @addTask newId st _ fresh ih =>
    by_cases hblank : trim st.input = []
    · simpa [addTask, hblank] using ih
    · simp only [addTask, hblank, if_false, List.map_append, List.map_cons, List.map_nil]
      refine List.Nodup.append ih (List.nodup_singleton _) ?_
      intro x hx hx2
      rw [List.mem_singleton] at hx2
      obtain ⟨t, ht, rfl⟩ := List.mem_map.mp hx
      exact fresh t ht hx2
  | @toggleTask id st _ ih =>
    have := map_id_toggle id st.tasks
    simp only [toggleTask]
    rw [this]; exact ih
  | @deleteTask id st _ ih =>
    exact ih.sublist ((List.filter_sublist _).map Task.id)
  | startEdit id currentText _ ih => exact ih
  | setEditText value _ ih => exact ih
  | @saveEdit id st _ ih =>
    by_cases hblank : trim st.editText = []
    · simpa [saveEdit, hblank] using ih
    · have := map_id_retitle id st.editText st.tasks
      simp only [saveEdit, hblank, if_false]
      rw [this]; exact ih
  | cancelEdit _ ih => exact ih

theorem reachable_ids_nodup_witness :
    Reachable (fun _ => false) fixtureExample (save milk)
        (addTask (utf16 "2") (setInput (utf16 "Walk dog") (loaded milk))) ∧
      ((addTask (utf16 "2") (setInput (utf16 "Walk dog") (loaded milk))).tasks.map
        Task.id).Nodup :=
  have hreach : Reachable (fun _ => false) fixtureExample (save milk)
      (addTask (utf16 "2") (setInput (utf16 "Walk dog") (loaded milk))) :=
    Reachable.addTask (utf16 "2")
      (Reachable.setInput (utf16 "Walk dog")
        (Reachable.start milk (load_save _ _ milk (by decide))))
      (by decide)
  ⟨hreach,
    reachable_ids_nodup (fun _ => false) fixtureExample (save milk)
      (fun s hs => by
        rw [load_save _ _ milk (by decide)] at hs
        rw [← injective_tasksToJs (Except.ok.inj hs)]
        decide)
      _ hreach⟩

end TodoApp
